import Mathlib

/-!
Shallow embedding of the USB host-side glue of the sabios kernel:
the bump allocator (cxx_src/usb/memory.cpp), the HID keyboard class
driver (cxx_src/usb/classdriver/keyboard.cpp), the error model
(cxx_src/error.hpp) and the xHCI controller port sweep
(cxx_src/sabios_support.cpp).  Machine integers are modelled as Nat
with explicit reduction modulo 2^64 (uintptr_t, size_t) and 2^32
(unsigned int) where the C arithmetic can wrap; the 64-bit bitwise
complement is XOR with the all-ones 64-bit word.
-/

def UINT64_MOD : Nat := 18446744073709551616

def UINT32_MOD : Nat := 4294967296

namespace usb

/-- Embedding of the anonymous-namespace helper in usb/memory.cpp:
`Ceil(value, alignment) = (value + alignment - 1) & ~static_cast<T>(alignment - 1)`
with `T = uintptr_t`.  `alignment` has C type `unsigned int`, so
`alignment - 1` wraps modulo 2^32 before being zero-extended to 64
bits and complemented; the sum on the left wraps modulo 2^64. -/
def Ceil (value alignment : Nat) : Nat :=
  ((value + alignment % UINT32_MOD + (UINT64_MOD - 1)) % UINT64_MOD) &&&
    ((UINT64_MOD - 1) ^^^ ((alignment % UINT32_MOD + (UINT32_MOD - 1)) % UINT32_MOD))

/-- The three globals of usb/memory.cpp: `memory_pool_size`,
`pool_base_ptr` and `alloc_ptr`, gathered into one state record. -/
structure PoolState where
  memory_pool_size : Nat
  pool_base_ptr : Nat
  alloc_ptr : Nat
  deriving Repr, DecidableEq

/-- Embedding of `usb::SetMemoryPool(pool_ptr, pool_size)`:
`pool_base_ptr = alloc_ptr = pool_ptr; memory_pool_size = pool_size;`.
The parameters have C types `uintptr_t` and `size_t`, hence the
reduction modulo 2^64. -/
def SetMemoryPool (pool_ptr pool_size : Nat) : PoolState :=
  { memory_pool_size := pool_size % UINT64_MOD
    pool_base_ptr := pool_ptr % UINT64_MOD
    alloc_ptr := pool_ptr % UINT64_MOD }

/-- The value of `alloc_ptr` after the alignment and boundary
adjustment steps of `usb::AllocMem` (memory.cpp lines 26-34), before
the capacity check:
alignment rounding runs only when `alignment > 0`; then, when
`boundary > 0`, the candidate is moved to `Ceil(alloc_ptr, boundary)`
exactly when that next boundary is below `alloc_ptr + size`. -/
def AdjustPtr (ptr size alignment boundary : Nat) : Nat :=
  let p1 := if 0 < alignment % UINT32_MOD then Ceil ptr alignment else ptr
  if 0 < boundary % UINT32_MOD then
    let next_boundary := Ceil p1 boundary
    if next_boundary < (p1 + size) % UINT64_MOD then next_boundary else p1
  else p1

/-- Embedding of `usb::AllocMem(size, alignment, boundary)`.  The
returned Nat is the numeric value of the returned `void *`; the null
pointer is the value 0.  Note that the adjustment steps mutate the
global `alloc_ptr` even when the subsequent capacity check fails. -/
def AllocMem (s : PoolState) (size alignment boundary : Nat) :
    Nat × PoolState :=
  let p := AdjustPtr s.alloc_ptr size alignment boundary
  if (s.pool_base_ptr + s.memory_pool_size) % UINT64_MOD < (p + size) % UINT64_MOD then
    (0, { s with alloc_ptr := p })
  else
    (p, { s with alloc_ptr := (p + size) % UINT64_MOD })

/-- Embedding of `usb::FreeMem(p)`: a deliberate no-op on the pool
state. -/
def FreeMem (s : PoolState) (_p : Nat) : PoolState := s

/-- Run a list of `(size, alignment, boundary)` requests through
`AllocMem`, threading the pool state and collecting the returned
pointer values in order. -/
def allocSequence (s : PoolState) : List (Nat × Nat × Nat) → List Nat × PoolState
  | [] => ([], s)
  | r :: rest =>
    let a := AllocMem s r.1 r.2.1 r.2.2
    let t := allocSequence a.2 rest
    (a.1 :: t.1, t.2)

end usb

/-- Reachable-state invariant of the pool globals along a run in
which every allocation succeeds: the pool base is a nonzero address
and `alloc_ptr` stays inside the configured bounds. -/
def PoolWF (s : usb.PoolState) : Prop :=
  0 < s.pool_base_ptr ∧ s.pool_base_ptr ≤ s.alloc_ptr ∧
    s.alloc_ptr ≤ s.pool_base_ptr + s.memory_pool_size

/-- Side conditions on one `AllocMem` request under which the
strict-increase / alignment / no-overlap properties hold: a positive
size that cannot overflow the 64-bit arithmetic, a power-of-two
alignment and a zero or power-of-two boundary. -/
def ReqOK (base cap : Nat) (r : Nat × Nat × Nat) : Prop :=
  1 ≤ r.1 ∧ base + cap + r.1 + 2 ^ 34 < 2 ^ 64 ∧
    (∃ j, j ≤ 31 ∧ r.2.1 = 2 ^ j) ∧ (r.2.2 = 0 ∨ ∃ i, i ≤ 31 ∧ r.2.2 = 2 ^ i)

/-- The closed 16-kind error code enumeration of error.hpp.  The
sentinel `kLastOfCode` is only a count of the codes, checked against
the name table by a static assertion; it is not a constructible
code. -/
inductive ErrorCode where
  | kSuccess
  | kNoEnoughMemory
  | kInvalidSlotID
  | kInvalidEndpointNumber
  | kTransferRingNotSet
  | kAlreadyAllocated
  | kNotImplemented
  | kInvalidDescriptor
  | kBufferTooSmall
  | kUnknownDevice
  | kNoCorrespondingSetupStage
  | kTransferFailed
  | kInvalidPhase
  | kUnknownXHCISpeedID
  | kNoWaiter
  | kEndpointNotInCharge
  deriving Repr, DecidableEq

/-- Embedding of the `code_names_` table of error.hpp.  The C++ code
indexes a 16-entry array with the numeric code; here the same table
is a case distinction. -/
def ErrorCode.codeName : ErrorCode → String
  | .kSuccess => "kSuccess"
  | .kNoEnoughMemory => "kNoEnoughMemory"
  | .kInvalidSlotID => "kInvalidSlotID"
  | .kInvalidEndpointNumber => "kInvalidEndpointNumber"
  | .kTransferRingNotSet => "kTransferRingNotSet"
  | .kAlreadyAllocated => "kAlreadyAllocated"
  | .kNotImplemented => "kNotImplemented"
  | .kInvalidDescriptor => "kInvalidDescriptor"
  | .kBufferTooSmall => "kBufferTooSmall"
  | .kUnknownDevice => "kUnknownDevice"
  | .kNoCorrespondingSetupStage => "kNoCorrespondingSetupStage"
  | .kTransferFailed => "kTransferFailed"
  | .kInvalidPhase => "kInvalidPhase"
  | .kUnknownXHCISpeedID => "kUnknownXHCISpeedID"
  | .kNoWaiter => "kNoWaiter"
  | .kEndpointNotInCharge => "kEndpointNotInCharge"

/-- Embedding of `class Error` of error.hpp: a code plus the origin
file and line recorded by `MAKE_ERROR`. -/
structure Error where
  code : ErrorCode
  line : Int
  file : String
  deriving Repr, DecidableEq

/-- `Error::Cause()`. -/
def Error.Cause (e : Error) : ErrorCode := e.code

/-- `Error::operator bool()`: true iff the code differs from
`kSuccess`. -/
def Error.toBool (e : Error) : Bool := e.code != ErrorCode.kSuccess

/-- `Error::Name()`: the `code_names_` entry of the stored code. -/
def Error.Name (e : Error) : String := e.code.codeName

/-- `Error::File()`. -/
def Error.File (e : Error) : String := e.file

/-- `Error::Line()`. -/
def Error.Line (e : Error) : Int := e.line

/-- `MAKE_ERROR(code)` expanded at an origin `(file, line)`. -/
def MAKE_ERROR (code : ErrorCode) (file : String) (line : Int) : Error :=
  { code := code, line := line, file := file }

namespace usb

/-- Observable per-instance state of `HIDKeyboardDriver`: the current
and previous report buffers of the HID base driver, and the observer
array with its counter.  Modelled from the spec: the base-class and
class headers are not in src/; per the spec a report buffer is a
fixed-length byte sequence (the keyboard driver passes report length
8 to the base constructor) and the observer registry is a bounded,
insertion-ordered array with a declared capacity and a separate
counter.  A slot holds `Option α`; `none` is the default-constructed
empty `std::function`. -/
structure HIDKeyboardDriver (α : Type) where
  buffer : List Nat
  previous_buffer : List Nat
  observers : Nat → Option α
  num_observers : Nat
  capacity : Nat

/-- A fresh `HIDKeyboardDriver` instance with the given report
buffers: the observer counter is zero-initialized and every slot
holds the empty `std::function`. -/
def HIDKeyboardDriver.mkFresh (α : Type) (cur prev : List Nat) (capacity : Nat) :
    HIDKeyboardDriver α :=
  { buffer := cur, previous_buffer := prev, observers := fun _ => none,
    num_observers := 0, capacity := capacity }

/-- The `NotifyKeyPush` calls issued by one run of
`HIDKeyboardDriver::OnDataReceived` over a current and a previous
report: for each index in `[2, 8)` of the current report, skip a zero
byte, skip a byte that `std::find` locates in the previous report
from index 2 on, and otherwise call
`NotifyKeyPush(current[0], key)`. -/
def kbdDiffCalls (cur prev : List Nat) : List (Nat × Nat) :=
  ((cur.drop 2).take 6).filterMap fun key =>
    if key = 0 then none
    else if key ∈ prev.drop 2 then none
    else some (cur.getD 0 0, key)

/-- Embedding of `HIDKeyboardDriver::SubscribeKeyPush`:
`observers_[num_observers_++] = observer`, with no capacity check.
(When the array is already full the C++ write is out of bounds; the
model records the write and the unconditional increment.) -/
def HIDKeyboardDriver.SubscribeKeyPush (d : HIDKeyboardDriver α) (observer : α) :
    HIDKeyboardDriver α :=
  { d with
    observers := fun i => if i = d.num_observers then some observer else d.observers i
    num_observers := d.num_observers + 1 }

/-- Fold `SubscribeKeyPush` over a list of observers. -/
def HIDKeyboardDriver.subscribeAll (d : HIDKeyboardDriver α) :
    List α → HIDKeyboardDriver α
  | [] => d
  | f :: fs => (d.SubscribeKeyPush f).subscribeAll fs

/-- Embedding of `HIDKeyboardDriver::NotifyKeyPush`: invoke
`observers_[i](modifier, keycode)` for `i` in `[0, num_observers_)`,
in slot order.  The result is the invocation trace: slot index, slot
content, and the two arguments passed. -/
def HIDKeyboardDriver.NotifyKeyPush (d : HIDKeyboardDriver α) (modifier keycode : Nat) :
    List (Nat × Option α × Nat × Nat) :=
  (List.range d.num_observers).map fun i => (i, d.observers i, modifier, keycode)

/-- Embedding of `HIDKeyboardDriver::OnDataReceived`: the
concatenated observer invocation trace (each diffed key yields one
`NotifyKeyPush`), together with the returned
`MAKE_ERROR(Error::kSuccess)`. -/
def HIDKeyboardDriver.OnDataReceived (d : HIDKeyboardDriver α) :
    List (Nat × Option α × Nat × Nat) × Error :=
  ((kbdDiffCalls d.buffer d.previous_buffer).flatMap fun c =>
      d.NotifyKeyPush c.1 c.2,
    MAKE_ERROR ErrorCode.kSuccess "usb/classdriver/keyboard.cpp" 24)

/-- Embedding of `HIDKeyboardDriver::operator new`: it ignores the
passed size and calls `AllocMem(sizeof(HIDKeyboardDriver), 0, 0)`.
The concrete value of `sizeof(HIDKeyboardDriver)` depends on the
class layout declared in a header that is not under src/, so it is a
parameter here. -/
def HIDKeyboardDriver.operatorNew (sizeofDriver : Nat) (s : PoolState) (_size : Nat) :
    Nat × PoolState :=
  AllocMem s sizeofDriver 0 0

/-- Embedding of `HIDKeyboardDriver::operator delete`: delegates to
the no-op `FreeMem`. -/
def HIDKeyboardDriver.operatorDelete (s : PoolState) (ptr : Nat) : PoolState :=
  FreeMem s ptr

end usb

/-- Opaque model of the xHCI controller capability used by the port
sweep in sabios_support.cpp: the root hub port count (`MaxPorts`),
the connection state reported by `Port::IsConnected` for each index,
and the `Error` returned by `ConfigurePort` for each index. -/
structure XhciController where
  maxPorts : Nat
  isConnected : Nat → Bool
  configurePort : Nat → Error

/-- One observable action of the port sweep. -/
inductive PortAction where
  | logDebug (port : Nat) (connected : Bool)
  | configureAttempt (port : Nat)
  | logError (port : Nat) (name : String) (file : String) (line : Int)
  deriving Repr, DecidableEq

/-- Embedding of `cxx_xhci_controller_configure_connected_ports`
(sabios_support.cpp lines 21-33) as its trace of observable actions:
for `i = 1` up to `MaxPorts` inclusive, log the connection state at
debug level; if the port is connected, attempt `ConfigurePort`; if
that returns a truthy `Error`, log it at error level with its name,
file and line, and continue with the next port index. -/
def cxx_xhci_controller_configure_connected_ports (xhc : XhciController) :
    List PortAction :=
  (List.range' 1 xhc.maxPorts).flatMap fun i =>
    PortAction.logDebug i (xhc.isConnected i) ::
      (if xhc.isConnected i then
        PortAction.configureAttempt i ::
          (if (xhc.configurePort i).toBool then
            [PortAction.logError i (xhc.configurePort i).Name
              (xhc.configurePort i).File (xhc.configurePort i).Line]
          else [])
      else [])

/-! Bit-arithmetic characterization of `usb.Ceil`. -/

theorem and_decomp (y z : Nat) :
    y &&& z = 2 * (y / 2 &&& z / 2) + (y &&& z) % 2 := by
  have h := Nat.div_add_mod (y &&& z) 2
  have h2 : (y &&& z) / 2 = y / 2 &&& z / 2 := Nat.and_div_two
  omega

theorem and_compl_add_and (n : Nat) :
    ∀ x m : Nat, x < 2 ^ n → m < 2 ^ n →
      (x &&& ((2 ^ n - 1) ^^^ m)) + (x &&& m) = x := by
  induction n with
  | zero =>
    intro x m hx hm
    have hx0 : x = 0 := by omega
    subst hx0; simp
  | succ n ih =>
    intro x m hx hm
    have hpow : 2 ^ (n + 1) = 2 * 2 ^ n := by rw [Nat.pow_succ]; ring
    have hppos : 0 < 2 ^ n := Nat.pos_pow_of_pos n (by omega)
    have hx2 : x / 2 < 2 ^ n := by omega
    have hm2 : m / 2 < 2 ^ n := by omega
    have e1 : (2 ^ (n + 1) - 1) / 2 = 2 ^ n - 1 := by omega
    have e2 : (2 ^ (n + 1) - 1) % 2 = 1 := by omega
    have hc : ((2 ^ (n + 1) - 1) ^^^ m) / 2 = (2 ^ n - 1) ^^^ (m / 2) := by
      rw [Nat.xor_div_two, e1]
    have hcm : ((2 ^ (n + 1) - 1) ^^^ m) % 2 = (1 + m) % 2 := by
      rw [Nat.xor_mod_two_eq]; omega
    have d1 := and_decomp x ((2 ^ (n + 1) - 1) ^^^ m)
    have d2 := and_decomp x m
    rw [hc] at d1
    have ihx := ih (x / 2) (m / 2) hx2 hm2
    have b1 := @Nat.and_mod_two_eq_one x ((2 ^ (n + 1) - 1) ^^^ m)
    have b2 := @Nat.and_mod_two_eq_one x m
    have hx1 : x % 2 = 0 ∨ x % 2 = 1 := Nat.mod_two_eq_zero_or_one x
    have hm1 : m % 2 = 0 ∨ m % 2 = 1 := Nat.mod_two_eq_zero_or_one m
    have hb1 : ((x &&& ((2 ^ (n + 1) - 1) ^^^ m)) % 2 = 0 ∨
        (x &&& ((2 ^ (n + 1) - 1) ^^^ m)) % 2 = 1) :=
      Nat.mod_two_eq_zero_or_one _
    have hb2 : ((x &&& m) % 2 = 0 ∨ (x &&& m) % 2 = 1) :=
      Nat.mod_two_eq_zero_or_one _
    rcases hx1 with hx1 | hx1 <;> rcases hm1 with hm1 | hm1 <;> omega

theorem and_le_left_nat (x m : Nat) : x &&& m ≤ x := Nat.and_le_left

theorem and_le_right_nat (x m : Nat) : x &&& m ≤ m := Nat.and_le_right

/-- Masking with the 64-bit complement of `m` subtracts at most `m`. -/
theorem and_compl_ge (x m : Nat) (hx : x < 2 ^ 64) (hm : m < 2 ^ 64) :
    x - m ≤ x &&& ((2 ^ 64 - 1) ^^^ m) := by
  have h := and_compl_add_and 64 x m hx hm
  have h2 : x &&& m ≤ m := Nat.and_le_right
  omega

/-- Masking with the 64-bit complement of `2^j - 1` rounds down to a
multiple of `2^j`. -/
theorem and_compl_two_pow_sub_one (x j : Nat) (hx : x < 2 ^ 64) (hj : j ≤ 64) :
    x &&& ((2 ^ 64 - 1) ^^^ (2 ^ j - 1)) = 2 ^ j * (x / 2 ^ j) := by
  apply Nat.eq_of_testBit_eq
  intro i
  have hrhs : 2 ^ j * (x / 2 ^ j) = (x >>> j) <<< j := by
    rw [Nat.shiftLeft_eq, Nat.shiftRight_eq_div_pow]; ring
  rw [hrhs]
  rw [Nat.testBit_and, Nat.testBit_xor, Nat.testBit_two_pow_sub_one,
    Nat.testBit_two_pow_sub_one, Nat.testBit_shiftLeft, Nat.testBit_shiftRight]
  by_cases hij : j ≤ i
  · have hadd : j + (i - j) = i := by omega
    rw [hadd]
    by_cases hi64 : i < 64
    · have hnij : ¬ i < j := by omega
      simp [hij, hi64, hnij]
    · have hi : (64 : Nat) ≤ i := by omega
      have hxi : x.testBit i = false :=
        Nat.testBit_lt_two_pow (lt_of_lt_of_le hx (Nat.pow_le_pow_right (by omega) hi))
      simp [hxi]
  · have hij2 : i < j := by omega
    have hi64 : i < 64 := by omega
    simp [hij, hij2, hi64]

/-! Arithmetic characterization of rounding up to a multiple. -/

theorem roundUp_ge (v b : Nat) (hb : 0 < b) : v ≤ b * ((v + b - 1) / b) := by
  have h := Nat.div_add_mod (v + b - 1) b
  have hm : (v + b - 1) % b < b := Nat.mod_lt _ hb
  omega

theorem roundUp_le (v b : Nat) : b * ((v + b - 1) / b) ≤ v + b - 1 := by
  rw [Nat.mul_comm]
  exact Nat.div_mul_le_self (v + b - 1) b

theorem roundUp_mod (v b : Nat) : b * ((v + b - 1) / b) % b = 0 :=
  Nat.mul_mod_right b _

theorem roundUp_eq_self (v b : Nat) (hb : 0 < b) (hv : v % b = 0) :
    b * ((v + b - 1) / b) = v := by
  obtain ⟨q, rfl⟩ : ∃ q, v = b * q :=
    ⟨v / b, by have h := Nat.div_add_mod v b; omega⟩
  have he : b * q + b - 1 = b * q + (b - 1) := by omega
  rw [he, Nat.mul_add_div hb, Nat.div_eq_of_lt (by omega), Nat.add_zero]

/-- On a power-of-two alignment `2^j < 2^32`, and absent 64-bit
overflow, `usb.Ceil` rounds `v` up to the next multiple of `2^j`. -/
theorem Ceil_pow2 (v j : Nat) (hj : j ≤ 31) (hv : v + 2 ^ j - 1 < 2 ^ 64) :
    usb.Ceil v (2 ^ j) = 2 ^ j * ((v + 2 ^ j - 1) / 2 ^ j) := by
  have hjlt : 2 ^ j < 2 ^ 32 :=
    Nat.lt_of_lt_of_le (Nat.pow_lt_pow_right (by omega) (by omega)) (le_refl _)
  have hmod32 : 2 ^ j % UINT32_MOD = 2 ^ j := Nat.mod_eq_of_lt hjlt
  have hjpos : 0 < 2 ^ j := Nat.pos_pow_of_pos j (by omega)
  have h64 : UINT64_MOD = 2 ^ 64 := by norm_num [UINT64_MOD]
  have h32 : UINT32_MOD = 2 ^ 32 := by norm_num [UINT32_MOD]
  unfold usb.Ceil
  rw [hmod32]
  have e1 : (v + 2 ^ j + (UINT64_MOD - 1)) % UINT64_MOD = v + 2 ^ j - 1 := by
    rw [h64]
    have : v + 2 ^ j + (2 ^ 64 - 1) = (v + 2 ^ j - 1) + 1 * 2 ^ 64 := by omega
    rw [this, Nat.add_mul_mod_self_right, Nat.mod_eq_of_lt hv]
  have e2 : (2 ^ j + (UINT32_MOD - 1)) % UINT32_MOD = 2 ^ j - 1 := by
    rw [h32]
    have : 2 ^ j + (2 ^ 32 - 1) = (2 ^ j - 1) + 1 * 2 ^ 32 := by omega
    rw [this, Nat.add_mul_mod_self_right, Nat.mod_eq_of_lt (by omega)]
  rw [e1, e2, h64]
  exact and_compl_two_pow_sub_one (v + 2 ^ j - 1) j hv (by omega)

/-- For any alignment value in `[1, 2^32)`, and absent 64-bit
overflow, `usb.Ceil v a` lies in `[v, v + a - 1]`. -/
theorem Ceil_bounds (v a : Nat) (ha : 0 < a) (ha32 : a < UINT32_MOD)
    (hv : v + a - 1 < UINT64_MOD) :
    v ≤ usb.Ceil v a ∧ usb.Ceil v a ≤ v + a - 1 := by
  have h64 : UINT64_MOD = 2 ^ 64 := by norm_num [UINT64_MOD]
  have h32 : UINT32_MOD = 2 ^ 32 := by norm_num [UINT32_MOD]
  have hmod32 : a % UINT32_MOD = a := Nat.mod_eq_of_lt ha32
  unfold usb.Ceil
  rw [hmod32]
  have e1 : (v + a + (UINT64_MOD - 1)) % UINT64_MOD = v + a - 1 := by
    have : v + a + (UINT64_MOD - 1) = (v + a - 1) + 1 * UINT64_MOD := by omega
    rw [this, Nat.add_mul_mod_self_right, Nat.mod_eq_of_lt hv]
  have e2 : (a + (UINT32_MOD - 1)) % UINT32_MOD = a - 1 := by
    have : a + (UINT32_MOD - 1) = (a - 1) + 1 * UINT32_MOD := by omega
    rw [this, Nat.add_mul_mod_self_right, Nat.mod_eq_of_lt (by omega)]
  rw [e1, e2]
  rw [h64] at hv
  rw [h32] at ha32
  constructor
  · rw [h64]
    have hlow := and_compl_ge (v + a - 1) (a - 1) (by omega) (by omega)
    omega
  · exact Nat.and_le_left

theorem u64_eq : UINT64_MOD = 2 ^ 64 := by norm_num [UINT64_MOD]

theorem u32_eq : UINT32_MOD = 2 ^ 32 := by norm_num [UINT32_MOD]

theorem Ceil_pow2_spec (v j : Nat) (hj : j ≤ 31) (hv : v + 2 ^ j - 1 < 2 ^ 64) :
    v ≤ usb.Ceil v (2 ^ j) ∧ usb.Ceil v (2 ^ j) ≤ v + 2 ^ j - 1 ∧
    usb.Ceil v (2 ^ j) % 2 ^ j = 0 ∧ (v % 2 ^ j = 0 → usb.Ceil v (2 ^ j) = v) := by
  have hb : 0 < 2 ^ j := Nat.pos_pow_of_pos j (by omega)
  rw [Ceil_pow2 v j hj hv]
  exact ⟨roundUp_ge v _ hb, roundUp_le v _, roundUp_mod v _,
    fun h => roundUp_eq_self v _ hb h⟩

theorem pow2_le_31 (j : Nat) (hj : j ≤ 31) : 2 ^ j ≤ 2 ^ 31 :=
  Nat.pow_le_pow_right (by omega) hj

theorem pow2_lt_u32 (j : Nat) (hj : j ≤ 31) : 2 ^ j < UINT32_MOD := by
  rw [u32_eq]
  exact Nat.lt_of_le_of_lt (pow2_le_31 j hj) (by norm_num)

/-- Behavior of the adjustment phase of `AllocMem` on a power-of-two
alignment and a power-of-two (or zero) boundary: the candidate is at
least the incoming offset, exceeds it by less than `2^33`, and is a
multiple of the alignment. -/
theorem AdjustPtr_pow2 (ptr size j : Nat) (hj : j ≤ 31)
    (b : Nat) (hb : b = 0 ∨ ∃ i, i ≤ 31 ∧ b = 2 ^ i)
    (hno : ptr + 2 ^ 33 + size < 2 ^ 64) :
    ptr ≤ usb.AdjustPtr ptr size (2 ^ j) b ∧
    usb.AdjustPtr ptr size (2 ^ j) b ≤ ptr + 2 ^ 33 ∧
    usb.AdjustPtr ptr size (2 ^ j) b % 2 ^ j = 0 := by
  have hjle := pow2_le_31 j hj
  have hjpos : 0 < 2 ^ j := Nat.pos_pow_of_pos j (by omega)
  have hmodj : 2 ^ j % UINT32_MOD = 2 ^ j := Nat.mod_eq_of_lt (pow2_lt_u32 j hj)
  have hc1 := Ceil_pow2_spec ptr j hj (by omega)
  simp only [usb.AdjustPtr, hmodj, if_pos hjpos]
  rcases hb with rfl | ⟨i, hi, rfl⟩
  · have h0 : ¬ 0 < 0 % UINT32_MOD := by simp
    rw [if_neg h0]
    exact ⟨hc1.1, by omega, hc1.2.2.1⟩
  · have hile := pow2_le_31 i hi
    have hipos : 0 < 2 ^ i := Nat.pos_pow_of_pos i (by omega)
    have hmodi : 2 ^ i % UINT32_MOD = 2 ^ i := Nat.mod_eq_of_lt (pow2_lt_u32 i hi)
    rw [hmodi, if_pos hipos]
    have hc2 := Ceil_pow2_spec (usb.Ceil ptr (2 ^ j)) i hi (by omega)
    by_cases hcross :
      usb.Ceil (usb.Ceil ptr (2 ^ j)) (2 ^ i) < (usb.Ceil ptr (2 ^ j) + size) % UINT64_MOD
    · rw [if_pos hcross]
      refine ⟨by omega, by omega, ?_⟩
      rcases Nat.le_total j i with hji | hij
      · have hdvd : 2 ^ j ∣ usb.Ceil (usb.Ceil ptr (2 ^ j)) (2 ^ i) :=
          dvd_trans (Nat.pow_dvd_pow 2 hji) (Nat.dvd_of_mod_eq_zero hc2.2.2.1)
        exact Nat.mod_eq_zero_of_dvd hdvd
      · have hdvd : 2 ^ i ∣ usb.Ceil ptr (2 ^ j) :=
          dvd_trans (Nat.pow_dvd_pow 2 hij) (Nat.dvd_of_mod_eq_zero hc1.2.2.1)
        rw [hc2.2.2.2 (Nat.mod_eq_zero_of_dvd hdvd)]
        exact hc1.2.2.1
    · rw [if_neg hcross]
      exact ⟨hc1.1, by omega, hc1.2.2.1⟩

/-- One successful `AllocMem` call from a well-formed state: the
returned address is at least the old offset, aligned, the allocated
range stays inside the pool, and the new state is well formed with
the offset advanced to the end of the range. -/
theorem AllocMem_step (s : usb.PoolState) (size a b j : Nat)
    (hwf : PoolWF s)
    (h1 : 1 ≤ size)
    (hov : s.pool_base_ptr + s.memory_pool_size + size + 2 ^ 34 < 2 ^ 64)
    (hj : j ≤ 31) (ha : a = 2 ^ j)
    (hb : b = 0 ∨ ∃ i, i ≤ 31 ∧ b = 2 ^ i)
    (hsucc : (usb.AllocMem s size a b).1 ≠ 0) :
    s.alloc_ptr ≤ (usb.AllocMem s size a b).1 ∧
    (usb.AllocMem s size a b).1 % a = 0 ∧
    (usb.AllocMem s size a b).1 + size ≤ s.pool_base_ptr + s.memory_pool_size ∧
    (usb.AllocMem s size a b).2.alloc_ptr = (usb.AllocMem s size a b).1 + size ∧
    (usb.AllocMem s size a b).2.pool_base_ptr = s.pool_base_ptr ∧
    (usb.AllocMem s size a b).2.memory_pool_size = s.memory_pool_size ∧
    PoolWF (usb.AllocMem s size a b).2 := by
  obtain ⟨hbase, hlo, hhi⟩ := hwf
  subst ha
  have hadj := AdjustPtr_pow2 s.alloc_ptr size j hj b hb (by omega)
  set p := usb.AdjustPtr s.alloc_ptr size (2 ^ j) b with hp
  have hmod1 : (s.pool_base_ptr + s.memory_pool_size) % UINT64_MOD =
      s.pool_base_ptr + s.memory_pool_size := by
    rw [u64_eq]; exact Nat.mod_eq_of_lt (by omega)
  have hmod2 : (p + size) % UINT64_MOD = p + size := by
    rw [u64_eq]; exact Nat.mod_eq_of_lt (by omega)
  by_cases hcmp : s.pool_base_ptr + s.memory_pool_size < p + size
  · exfalso
    apply hsucc
    simp only [usb.AllocMem, ← hp, hmod1, hmod2, if_pos hcmp]
  · have halloc : usb.AllocMem s size (2 ^ j) b =
        (p, { s with alloc_ptr := p + size }) := by
      simp only [usb.AllocMem, ← hp, hmod1, hmod2, if_neg hcmp]
    have h1 : (usb.AllocMem s size (2 ^ j) b).1 = p := by rw [halloc]
    have h2a : (usb.AllocMem s size (2 ^ j) b).2.alloc_ptr = p + size := by
      rw [halloc]
    have h2b : (usb.AllocMem s size (2 ^ j) b).2.pool_base_ptr = s.pool_base_ptr := by
      rw [halloc]
    have h2c : (usb.AllocMem s size (2 ^ j) b).2.memory_pool_size = s.memory_pool_size := by
      rw [halloc]
    rw [h1, h2a, h2b, h2c]
    refine ⟨hadj.1, hadj.2.2, by omega, rfl, rfl, rfl, ?_⟩
    unfold PoolWF
    rw [h2a, h2b, h2c]
    exact ⟨hbase, by omega, by omega⟩

theorem allocSequence_length (reqs : List (Nat × Nat × Nat)) :
    ∀ s : usb.PoolState, (usb.allocSequence s reqs).1.length = reqs.length := by
  induction reqs with
  | nil => intro s; rfl
  | cons r rest ih =>
    intro s
    simp only [usb.allocSequence, List.length_cons]
    rw [ih]

theorem allocSequence_cons (s : usb.PoolState) (r : Nat × Nat × Nat)
    (rest : List (Nat × Nat × Nat)) :
    usb.allocSequence s (r :: rest) =
      ((usb.AllocMem s r.1 r.2.1 r.2.2).1 ::
        (usb.allocSequence (usb.AllocMem s r.1 r.2.1 r.2.2).2 rest).1,
       (usb.allocSequence (usb.AllocMem s r.1 r.2.1 r.2.2).2 rest).2) := rfl

/-- Induction core for the all-successful allocation sequence: every
returned address is at least the starting offset, consecutive
returned ranges are separated in order, and every returned address is
aligned to the alignment of its request. -/
theorem allocSequence_spec (base cap : Nat) :
    ∀ (reqs : List (Nat × Nat × Nat)) (s : usb.PoolState),
    PoolWF s → s.pool_base_ptr = base → s.memory_pool_size = cap →
    (∀ r ∈ reqs, ReqOK base cap r) →
    (∀ x ∈ (usb.allocSequence s reqs).1, x ≠ 0) →
    (∀ x ∈ (usb.allocSequence s reqs).1, s.alloc_ptr ≤ x) ∧
    List.Pairwise (fun u v => u.1 + u.2 ≤ v.1)
      ((usb.allocSequence s reqs).1.zip (reqs.map Prod.fst)) ∧
    (∀ u ∈ (usb.allocSequence s reqs).1.zip (reqs.map (fun r => r.2.1)),
      u.1 % u.2 = 0) := by
  intro reqs
  induction reqs with
  | nil =>
    intro s hwf hb hc hreq hnz
    refine ⟨?_, ?_, ?_⟩ <;> simp [usb.allocSequence]
  | cons r rest ih =>
    intro s hwf hb hc hreq hnz
    rw [allocSequence_cons] at hnz ⊢
    obtain ⟨h1, hov, ⟨j, hj, haj⟩, hbopt⟩ := hreq r (by simp)
    have hnz0 : (usb.AllocMem s r.1 r.2.1 r.2.2).1 ≠ 0 := hnz _ (by simp)
    have hstep := AllocMem_step s r.1 r.2.1 r.2.2 j hwf h1
      (by rw [hb, hc]; exact hov) hj haj hbopt hnz0
    set s2 := (usb.AllocMem s r.1 r.2.1 r.2.2).2 with hs2
    have hihres := ih s2 hstep.2.2.2.2.2.2
      (by rw [hstep.2.2.2.2.1, hb]) (by rw [hstep.2.2.2.2.2.1, hc])
      (fun q hq => hreq q (by simp [hq]))
      (fun x hx => hnz x (by simp [hx]))
    refine ⟨?_, ?_, ?_⟩
    · intro x hx
      rcases List.mem_cons.1 hx with rfl | hx2
      · exact hstep.1
      · have := hihres.1 x hx2
        have h2 := hstep.2.2.2.1
        omega
    · rw [List.map_cons, List.zip_cons_cons, List.pairwise_cons]
      refine ⟨?_, hihres.2.1⟩
      intro u hu
      have hm := (List.of_mem_zip (a := u.1) (b := u.2) (by simpa using hu)).1
      have := hihres.1 u.1 hm
      have h2 := hstep.2.2.2.1
      omega
    · intro u hu
      rw [List.map_cons, List.zip_cons_cons] at hu
      rcases List.mem_cons.1 hu with rfl | hu2
      · exact hstep.2.1
      · exact hihres.2.2 u hu2

/-- Bounds on the adjustment phase for arbitrary (C-typed) alignment
and boundary values: the candidate never moves backwards and moves
forward by at most `alignment + boundary`. -/
theorem AdjustPtr_bounds (ptr size a b : Nat) (ha : a < UINT32_MOD)
    (hb : b < UINT32_MOD) (hno : ptr + a + b + size < UINT64_MOD) :
    ptr ≤ usb.AdjustPtr ptr size a b ∧ usb.AdjustPtr ptr size a b ≤ ptr + a + b := by
  have hma : a % UINT32_MOD = a := Nat.mod_eq_of_lt ha
  have hmb : b % UINT32_MOD = b := Nat.mod_eq_of_lt hb
  simp only [usb.AdjustPtr, hma, hmb]
  by_cases hap : 0 < a
  · have hc1 := Ceil_bounds ptr a hap ha (by omega)
    rw [if_pos hap]
    by_cases hbp : 0 < b
    · rw [if_pos hbp]
      have hc2 := Ceil_bounds (usb.Ceil ptr a) b hbp hb (by omega)
      by_cases hcross :
        usb.Ceil (usb.Ceil ptr a) b < (usb.Ceil ptr a + size) % UINT64_MOD
      · rw [if_pos hcross]; omega
      · rw [if_neg hcross]; omega
    · rw [if_neg hbp]; omega
  · rw [if_neg hap]
    by_cases hbp : 0 < b
    · rw [if_pos hbp]
      have hc2 := Ceil_bounds ptr b hbp hb (by omega)
      by_cases hcross : usb.Ceil ptr b < (ptr + size) % UINT64_MOD
      · rw [if_pos hcross]; omega
      · rw [if_neg hcross]; omega
    · rw [if_neg hbp]; omega

/-- The returned pointer value of `AllocMem` is either null or
exactly the adjusted offset. -/
theorem AllocMem_fst (s : usb.PoolState) (size a b : Nat) :
    (usb.AllocMem s size a b).1 = 0 ∨
    (usb.AllocMem s size a b).1 = usb.AdjustPtr s.alloc_ptr size a b := by
  simp only [usb.AllocMem]
  by_cases h : (s.pool_base_ptr + s.memory_pool_size) % UINT64_MOD <
      (usb.AdjustPtr s.alloc_ptr size a b + size) % UINT64_MOD
  · rw [if_pos h]; left; rfl
  · rw [if_neg h]; right; rfl

/-- C2 counterexample: the claim fails as stated in two corners.
First, for a pool configured at base address 0, `SetMemoryPool(0,
16)` followed by `AllocMem(8, 0, 0)` returns the null pointer value 0
(the address 0 is the null pointer) even though the adjusted offset
plus size (8) does not exceed base + capacity (16), so "fails iff the
adjusted request exceeds base + capacity" is violated.  Second, a
zero-size request against the exhausted pool `SetMemoryPool(0x1000,
16)` (after `AllocMem(16, 0, 0)`) succeeds and returns base +
capacity = 0x1010, an address outside [base, base + capacity). -/
theorem C2_null_success_counterexample :
    ((usb.AllocMem (usb.SetMemoryPool 0 16) 8 0 0).1 = 0 ∧
      usb.AdjustPtr (usb.SetMemoryPool 0 16).alloc_ptr 8 0 0 + 8 ≤
        (usb.SetMemoryPool 0 16).pool_base_ptr +
          (usb.SetMemoryPool 0 16).memory_pool_size) ∧
    ((usb.allocSequence (usb.SetMemoryPool 4096 16) [(16, 0, 0), (0, 0, 0)]).1 =
        [4096, 4112] ∧
      ¬ (4112 : Nat) < (usb.SetMemoryPool 4096 16).pool_base_ptr +
          (usb.SetMemoryPool 4096 16).memory_pool_size) := by
  decide

/-- C2 (amended: the pool base must be a nonzero address, the
requested size positive, the state in bounds, and the arithmetic free
of 64-bit overflow): `AllocMem` returns null iff the alignment- and
boundary-adjusted candidate offset plus the requested size exceeds
base + capacity; whenever it succeeds, the returned address lies in
the half-open interval [base, base + capacity) and the whole range
`[address, address + size)` lies inside `[base, base + capacity)`. -/
theorem C2_alloc_fail_iff_exceeds (s : usb.PoolState) (size a b : Nat)
    (hbase : 0 < s.pool_base_ptr)
    (hsize : 1 ≤ size)
    (hlo : s.pool_base_ptr ≤ s.alloc_ptr)
    (ha : a < UINT32_MOD) (hb : b < UINT32_MOD)
    (hcap : s.pool_base_ptr + s.memory_pool_size < UINT64_MOD)
    (hno : s.alloc_ptr + a + b + size < UINT64_MOD) :
    ((usb.AllocMem s size a b).1 = 0 ↔
      s.pool_base_ptr + s.memory_pool_size <
        usb.AdjustPtr s.alloc_ptr size a b + size) ∧
    ((usb.AllocMem s size a b).1 ≠ 0 →
      s.pool_base_ptr ≤ (usb.AllocMem s size a b).1 ∧
      (usb.AllocMem s size a b).1 <
        s.pool_base_ptr + s.memory_pool_size ∧
      (usb.AllocMem s size a b).1 + size ≤
        s.pool_base_ptr + s.memory_pool_size) := by
  have hadj := AdjustPtr_bounds s.alloc_ptr size a b ha hb hno
  set p := usb.AdjustPtr s.alloc_ptr size a b with hp
  have hmod1 : (s.pool_base_ptr + s.memory_pool_size) % UINT64_MOD =
      s.pool_base_ptr + s.memory_pool_size := Nat.mod_eq_of_lt hcap
  have hmod2 : (p + size) % UINT64_MOD = p + size := Nat.mod_eq_of_lt (by omega)
  by_cases hcmp : s.pool_base_ptr + s.memory_pool_size < p + size
  · have he : usb.AllocMem s size a b = (0, { s with alloc_ptr := p }) := by
      simp only [usb.AllocMem, ← hp, hmod1, hmod2, if_pos hcmp]
    have hfst : (usb.AllocMem s size a b).1 = 0 := by rw [he]
    rw [hfst]
    exact ⟨by omega, fun h => absurd rfl h⟩
  · have he : usb.AllocMem s size a b =
        (p, { s with alloc_ptr := p + size }) := by
      simp only [usb.AllocMem, ← hp, hmod1, hmod2, if_neg hcmp]
    have hfst : (usb.AllocMem s size a b).1 = p := by rw [he]
    rw [hfst]
    exact ⟨by omega, fun _ => ⟨by omega, by omega, by omega⟩⟩

/-- C2 witness: the amended theorem applied to the concrete pool of
the end-to-end scenario (base 0x1000, capacity 256) and the request
`AllocMem(16, 16, 0)`. -/
theorem C2_alloc_fail_iff_exceeds_witness :
    ((usb.AllocMem (usb.SetMemoryPool 4096 256) 16 16 0).1 = 0 ↔
      (usb.SetMemoryPool 4096 256).pool_base_ptr +
          (usb.SetMemoryPool 4096 256).memory_pool_size <
        usb.AdjustPtr (usb.SetMemoryPool 4096 256).alloc_ptr 16 16 0 + 16) ∧
    ((usb.AllocMem (usb.SetMemoryPool 4096 256) 16 16 0).1 ≠ 0 →
      (usb.SetMemoryPool 4096 256).pool_base_ptr ≤
        (usb.AllocMem (usb.SetMemoryPool 4096 256) 16 16 0).1 ∧
      (usb.AllocMem (usb.SetMemoryPool 4096 256) 16 16 0).1 <
        (usb.SetMemoryPool 4096 256).pool_base_ptr +
          (usb.SetMemoryPool 4096 256).memory_pool_size ∧
      (usb.AllocMem (usb.SetMemoryPool 4096 256) 16 16 0).1 + 16 ≤
        (usb.SetMemoryPool 4096 256).pool_base_ptr +
          (usb.SetMemoryPool 4096 256).memory_pool_size) :=
  C2_alloc_fail_iff_exceeds (usb.SetMemoryPool 4096 256) 16 16 0
    (by decide) (by decide) (by decide) (by decide) (by decide) (by decide)
    (by decide)

/-- C3 counterexample: the claim quantifies over any sequence of
successful calls, but two zero-size allocations (size 0, alignment 0,
boundary 0) against the pool at base 0x1000 both succeed with the
same address 0x1000, so the returned addresses are not strictly
increasing (and 0x1000 is not a multiple of the requested alignment
0). -/
theorem C3_zero_size_counterexample :
    (∀ x ∈ (usb.allocSequence (usb.SetMemoryPool 4096 256)
        [(0, 0, 0), (0, 0, 0)]).1, x ≠ 0) ∧
    (usb.allocSequence (usb.SetMemoryPool 4096 256)
        [(0, 0, 0), (0, 0, 0)]).1 = [4096, 4096] ∧
    ¬ List.Pairwise (fun x y => x < y)
      (usb.allocSequence (usb.SetMemoryPool 4096 256)
        [(0, 0, 0), (0, 0, 0)]).1 := by
  decide

/-- C3 (amended: the pool base is nonzero, every request has a
positive size small enough not to overflow the 64-bit arithmetic, a
power-of-two alignment, and a zero or power-of-two boundary): for any
sequence of successful `AllocMem` calls against a single configured
pool, the returned addresses are strictly increasing, each returned
address is a multiple of the alignment requested by its call, and the
returned ranges `[address, address + size)` are pairwise disjoint
(each range ends no later than the next begins). -/
theorem C3_alloc_monotone_aligned_disjoint (base cap : Nat)
    (reqs : List (Nat × Nat × Nat))
    (hbase : 0 < base) (hcap : base + cap < UINT64_MOD)
    (hreq : ∀ r ∈ reqs, ReqOK base cap r)
    (hnz : ∀ x ∈ (usb.allocSequence (usb.SetMemoryPool base cap) reqs).1, x ≠ 0) :
    List.Pairwise (fun x y => x < y)
      (usb.allocSequence (usb.SetMemoryPool base cap) reqs).1 ∧
    (∀ u ∈ (usb.allocSequence (usb.SetMemoryPool base cap) reqs).1.zip
        (reqs.map fun r => r.2.1), u.1 % u.2 = 0) ∧
    List.Pairwise (fun u v => u.1 + u.2 ≤ v.1)
      ((usb.allocSequence (usb.SetMemoryPool base cap) reqs).1.zip
        (reqs.map Prod.fst)) := by
  have hu := u64_eq
  have hb64 : base % UINT64_MOD = base := Nat.mod_eq_of_lt (by omega)
  have hc64 : cap % UINT64_MOD = cap := Nat.mod_eq_of_lt (by omega)
  have hsb : (usb.SetMemoryPool base cap).pool_base_ptr = base := by
    simp [usb.SetMemoryPool, hb64]
  have hsc : (usb.SetMemoryPool base cap).memory_pool_size = cap := by
    simp [usb.SetMemoryPool, hc64]
  have hsa : (usb.SetMemoryPool base cap).alloc_ptr = base := by
    simp [usb.SetMemoryPool, hb64]
  have hwf : PoolWF (usb.SetMemoryPool base cap) := by
    unfold PoolWF
    rw [hsb, hsc, hsa]
    omega
  have main := allocSequence_spec base cap reqs _ hwf hsb hsc hreq hnz
  refine ⟨?_, main.2.2, main.2.1⟩
  have hlen : (usb.allocSequence (usb.SetMemoryPool base cap) reqs).1.length ≤
      (reqs.map Prod.fst).length := by
    rw [allocSequence_length, List.length_map]
  have hmapfst := List.map_fst_zip
    (usb.allocSequence (usb.SetMemoryPool base cap) reqs).1 (reqs.map Prod.fst) hlen
  have hp2 : List.Pairwise (fun u v : Nat × Nat => u.1 < v.1)
      ((usb.allocSequence (usb.SetMemoryPool base cap) reqs).1.zip
        (reqs.map Prod.fst)) := by
    refine main.2.1.imp_of_mem ?_
    intro u v hu hv hr
    have hu2 : u.2 ∈ reqs.map Prod.fst :=
      (List.of_mem_zip (a := u.1) (b := u.2) (by simpa using hu)).2
    obtain ⟨r, hrm, hre⟩ := List.mem_map.1 hu2
    have h1 := (hreq r hrm).1
    omega
  rw [← hmapfst, List.pairwise_map]
  exact hp2

/-- C3 witness: the amended theorem applied to the pool at base
0x1000, capacity 256, with the two successful requests
`(16, 16, 0)` and `(10, 4, 0)`. -/
theorem C3_alloc_monotone_aligned_disjoint_witness :
    List.Pairwise (fun x y => x < y)
      (usb.allocSequence (usb.SetMemoryPool 4096 256)
        [(16, 16, 0), (10, 4, 0)]).1 ∧
    (∀ u ∈ (usb.allocSequence (usb.SetMemoryPool 4096 256)
        [(16, 16, 0), (10, 4, 0)]).1.zip
        ([(16, 16, 0), (10, 4, 0)].map fun r => r.2.1), u.1 % u.2 = 0) ∧
    List.Pairwise (fun u v => u.1 + u.2 ≤ v.1)
      ((usb.allocSequence (usb.SetMemoryPool 4096 256)
        [(16, 16, 0), (10, 4, 0)]).1.zip
        ([(16, 16, 0), (10, 4, 0)].map Prod.fst)) :=
  C3_alloc_monotone_aligned_disjoint 4096 256 [(16, 16, 0), (10, 4, 0)]
    (by decide) (by decide)
    (by
      intro r hr
      simp only [List.mem_cons, List.not_mem_nil, or_false] at hr
      rcases hr with rfl | rfl
      · exact ⟨by decide, by decide, ⟨4, by decide, by decide⟩, Or.inl rfl⟩
      · exact ⟨by decide, by decide, ⟨2, by decide, by decide⟩, Or.inl rfl⟩)
    (by decide)

/-- C5 counterexample: the claim as stated quantifies over every
boundary > 0, but for a non-power-of-two boundary the bit-mask `Ceil`
does not compute the next boundary multiple.  From offset 8 with
boundary 6 and size 20: the next multiple of 6 above the offset is
12, and it lies strictly below 8 + 20, so the claim says the offset
advances exactly to 12; the code computes
`Ceil(8, 6) = (8 + 5) & ~5 = 8`, leaves the offset at 8, and the
successful call returns 8 — not 12, and not a multiple of the
boundary at all. -/
theorem C5_nonpow2_boundary_counterexample :
    (usb.AllocMem (usb.SetMemoryPool 8 256) 20 0 6).1 = 8 ∧
    (12 : Nat) % 6 = 0 ∧ 8 < 12 ∧ 12 < 8 + 20 ∧
    ¬ (usb.AllocMem (usb.SetMemoryPool 8 256) 20 0 6).1 % 6 = 0 := by
  decide

/-- C5 (amended: the boundary is a positive power of two, the domain
the xHCI buffers use): in `AllocMem`, when the allocation starting at
the alignment-rounded offset would cross the next boundary line (next
boundary strictly below rounded offset + size), the adjusted offset
is exactly that next boundary multiple — the least multiple of the
boundary at or above the rounded offset,
`b * ((offset + b - 1) / b)` — no alignment rounding is applied after
the skip, and a successful call returns exactly that boundary
multiple. -/
theorem C5_boundary_skip_no_realign (s : usb.PoolState) (size a b i : Nat)
    (ha : a < UINT32_MOD) (hi : i ≤ 31) (hbi : b = 2 ^ i)
    (hno : s.alloc_ptr + a + b + size < UINT64_MOD)
    (hcross : usb.Ceil (if 0 < a then usb.Ceil s.alloc_ptr a else s.alloc_ptr) b <
      (if 0 < a then usb.Ceil s.alloc_ptr a else s.alloc_ptr) + size) :
    usb.AdjustPtr s.alloc_ptr size a b =
      usb.Ceil (if 0 < a then usb.Ceil s.alloc_ptr a else s.alloc_ptr) b ∧
    usb.AdjustPtr s.alloc_ptr size a b =
      b * (((if 0 < a then usb.Ceil s.alloc_ptr a else s.alloc_ptr) + b - 1) / b) ∧
    usb.AdjustPtr s.alloc_ptr size a b % b = 0 ∧
    ((usb.AllocMem s size a b).1 ≠ 0 →
      (usb.AllocMem s size a b).1 =
        usb.Ceil (if 0 < a then usb.Ceil s.alloc_ptr a else s.alloc_ptr) b) := by
  have hu := u64_eq
  have hma : a % UINT32_MOD = a := Nat.mod_eq_of_lt ha
  have hbpos : 0 < b := by rw [hbi]; exact Nat.pos_pow_of_pos i (by omega)
  have hb32 : b < UINT32_MOD := by rw [hbi]; exact pow2_lt_u32 i hi
  have hmb : b % UINT32_MOD = b := Nat.mod_eq_of_lt hb32
  have hp1 : s.alloc_ptr ≤ (if 0 < a then usb.Ceil s.alloc_ptr a else s.alloc_ptr) ∧
      (if 0 < a then usb.Ceil s.alloc_ptr a else s.alloc_ptr) ≤ s.alloc_ptr + a := by
    by_cases hap : 0 < a
    · rw [if_pos hap]
      have hcb := Ceil_bounds s.alloc_ptr a hap ha (by omega)
      omega
    · rw [if_neg hap]; omega
  have hmodsz : ((if 0 < a then usb.Ceil s.alloc_ptr a else s.alloc_ptr) + size) %
      UINT64_MOD = (if 0 < a then usb.Ceil s.alloc_ptr a else s.alloc_ptr) + size :=
    Nat.mod_eq_of_lt (by omega)
  have hadj : usb.AdjustPtr s.alloc_ptr size a b =
      usb.Ceil (if 0 < a then usb.Ceil s.alloc_ptr a else s.alloc_ptr) b := by
    simp only [usb.AdjustPtr, hma, hmb]
    rw [if_pos hbpos, hmodsz, if_pos hcross]
  refine ⟨hadj, ?_, ?_, ?_⟩
  · rw [hadj, hbi]
    exact Ceil_pow2 (if 0 < a then usb.Ceil s.alloc_ptr a else s.alloc_ptr)
      i hi (by omega)
  · rw [hadj, hbi]
    exact (Ceil_pow2_spec (if 0 < a then usb.Ceil s.alloc_ptr a else s.alloc_ptr)
      i hi (by omega)).2.2.1
  · intro hnz
    rcases AllocMem_fst s size a b with h0 | hfst
    · exact absurd h0 hnz
    · rw [hfst, hadj]

/-- C5 witness: the theorem applied to the state with `alloc_ptr` at
0x1005 inside the pool [0x1000, 0x1100), request size 20, alignment
0, boundary 16: the rounded offset is 0x1005, the next boundary
0x1010 is below 0x1005 + 20, and the successful call returns exactly
0x1010. -/
theorem C5_boundary_skip_no_realign_witness :
    usb.AdjustPtr (usb.PoolState.mk 256 4096 4101).alloc_ptr 20 0 16 =
      usb.Ceil (if 0 < 0 then
        usb.Ceil (usb.PoolState.mk 256 4096 4101).alloc_ptr 0
        else (usb.PoolState.mk 256 4096 4101).alloc_ptr) 16 ∧
    usb.AdjustPtr (usb.PoolState.mk 256 4096 4101).alloc_ptr 20 0 16 =
      16 * (((if 0 < 0 then
        usb.Ceil (usb.PoolState.mk 256 4096 4101).alloc_ptr 0
        else (usb.PoolState.mk 256 4096 4101).alloc_ptr) + 16 - 1) / 16) ∧
    usb.AdjustPtr (usb.PoolState.mk 256 4096 4101).alloc_ptr 20 0 16 % 16 = 0 ∧
    ((usb.AllocMem (usb.PoolState.mk 256 4096 4101) 20 0 16).1 ≠ 0 →
      (usb.AllocMem (usb.PoolState.mk 256 4096 4101) 20 0 16).1 =
        usb.Ceil (if 0 < 0 then
          usb.Ceil (usb.PoolState.mk 256 4096 4101).alloc_ptr 0
          else (usb.PoolState.mk 256 4096 4101).alloc_ptr) 16) :=
  C5_boundary_skip_no_realign (usb.PoolState.mk 256 4096 4101) 20 0 16 4
    (by decide) (by decide) (by decide) (by decide) (by decide)

/-- C8: the end-to-end scenario.  After `SetMemoryPool(0x1000, 256)`,
`AllocMem(16, 16, 0)` returns 0x1000 (4096), the next
`AllocMem(10, 4, 0)` returns 0x1010 (4112), and the next
`AllocMem(250, 1, 0)` fails, returning the null pointer value 0,
because 0x101a + 250 exceeds the pool bound 0x1100. -/
theorem C8_end_to_end_scenario :
    (usb.allocSequence (usb.SetMemoryPool 4096 256)
      [(16, 16, 0), (10, 4, 0), (250, 1, 0)]).1 = [4096, 4112, 0] := by
  decide

/-- C9: when `AllocMem` is called with alignment 0, no alignment
rounding is performed: the candidate offset entering the boundary
step is `alloc_ptr` unchanged, a successful call with boundary 0
returns exactly `alloc_ptr`, and in particular
`HIDKeyboardDriver::operator new` — which calls
`AllocMem(sizeof(HIDKeyboardDriver), 0, 0)` — receives exactly the
current arena offset, with no rounding for the object alignment,
whatever `sizeof(HIDKeyboardDriver)` is. -/
theorem C9_alignment_zero_no_rounding (s : usb.PoolState)
    (size sizeofDriver reqSize : Nat) :
    (∀ b, usb.AdjustPtr s.alloc_ptr size 0 b =
      if 0 < b % UINT32_MOD then
        (if usb.Ceil s.alloc_ptr b < (s.alloc_ptr + size) % UINT64_MOD then
          usb.Ceil s.alloc_ptr b else s.alloc_ptr)
      else s.alloc_ptr) ∧
    ((usb.AllocMem s size 0 0).1 ≠ 0 → (usb.AllocMem s size 0 0).1 = s.alloc_ptr) ∧
    ((usb.HIDKeyboardDriver.operatorNew sizeofDriver s reqSize).1 ≠ 0 →
      (usb.HIDKeyboardDriver.operatorNew sizeofDriver s reqSize).1 = s.alloc_ptr) := by
  have h0 : ¬ 0 < (0 : Nat) % UINT32_MOD := by decide
  have hzero : ∀ sz, usb.AdjustPtr s.alloc_ptr sz 0 0 = s.alloc_ptr := by
    intro sz
    simp only [usb.AdjustPtr, if_neg h0]
  refine ⟨?_, ?_, ?_⟩
  · intro b
    simp only [usb.AdjustPtr, if_neg h0]
  · intro hnz
    rcases AllocMem_fst s size 0 0 with hf | hf
    · exact absurd hf hnz
    · rw [hf, hzero]
  · intro hnz
    rcases AllocMem_fst s sizeofDriver 0 0 with hf | hf
    · exact absurd hf hnz
    · show (usb.AllocMem s sizeofDriver 0 0).1 = s.alloc_ptr
      rw [hf, hzero]

/-- C9 witness: at the state with `alloc_ptr` 0x1005 (not aligned to
anything in particular), both a plain `AllocMem(20, 0, 0)` and
`operator new` with `sizeof(HIDKeyboardDriver) = 144` return exactly
0x1005. -/
theorem C9_alignment_zero_no_rounding_witness :
    (usb.AllocMem (usb.PoolState.mk 256 4096 4101) 20 0 0).1 =
      (usb.PoolState.mk 256 4096 4101).alloc_ptr ∧
    (usb.HIDKeyboardDriver.operatorNew 144 (usb.PoolState.mk 256 4096 4101) 20).1 =
      (usb.PoolState.mk 256 4096 4101).alloc_ptr :=
  ⟨(C9_alignment_zero_no_rounding (usb.PoolState.mk 256 4096 4101) 20 144 20).2.1
      (by decide),
    (C9_alignment_zero_no_rounding (usb.PoolState.mk 256 4096 4101) 20 144 20).2.2
      (by decide)⟩

/-! Keyboard driver lemmas. -/

theorem subscribeAll_spec {α : Type} (fs : List α) :
    ∀ d : usb.HIDKeyboardDriver α,
    (∀ i, d.num_observers ≤ i → d.observers i = none) →
    (d.subscribeAll fs).num_observers = d.num_observers + fs.length ∧
    (∀ i, (d.subscribeAll fs).observers i =
      if i < d.num_observers then d.observers i
      else fs.get? (i - d.num_observers)) := by
  induction fs with
  | nil =>
    intro d hobs
    refine ⟨rfl, ?_⟩
    intro i
    by_cases hi : i < d.num_observers
    · rw [if_pos hi]; rfl
    · rw [if_neg hi]
      simp only [usb.HIDKeyboardDriver.subscribeAll, List.get?]
      exact hobs i (by omega)
  | cons f fs ih =>
    intro d hobs
    have hstep : usb.HIDKeyboardDriver.subscribeAll d (f :: fs) =
        (d.SubscribeKeyPush f).subscribeAll fs := rfl
    have hobs2 : ∀ i, (d.SubscribeKeyPush f).num_observers ≤ i →
        (d.SubscribeKeyPush f).observers i = none := by
      intro i hi
      simp only [usb.HIDKeyboardDriver.SubscribeKeyPush] at hi ⊢
      rw [if_neg (by omega)]
      exact hobs i (by omega)
    have hmain := ih (d.SubscribeKeyPush f) hobs2
    rw [hstep]
    refine ⟨?_, ?_⟩
    · rw [hmain.1]
      simp only [usb.HIDKeyboardDriver.SubscribeKeyPush, List.length_cons]
      omega
    · intro i
      rw [hmain.2 i]
      simp only [usb.HIDKeyboardDriver.SubscribeKeyPush]
      by_cases h1 : i < d.num_observers
      · have c1 : i < d.num_observers + 1 := by omega
        have c2 : ¬ i = d.num_observers := by omega
        rw [if_pos c1, if_pos h1, if_neg c2]
      · by_cases h2 : i = d.num_observers
        · have c1 : i < d.num_observers + 1 := by omega
          rw [if_pos c1, if_neg h1, if_pos h2, h2, Nat.sub_self]
          rfl
        · have c1 : ¬ i < d.num_observers + 1 := by omega
          rw [if_neg c1, if_neg h1]
          have harith : i - d.num_observers = (i - (d.num_observers + 1)) + 1 := by
            omega
          rw [harith]
          rfl

theorem kbdDiffCalls_fst {cur prev : List Nat} {c : Nat × Nat}
    (hc : c ∈ usb.kbdDiffCalls cur prev) : c.1 = cur.getD 0 0 := by
  simp only [usb.kbdDiffCalls, List.mem_filterMap] at hc
  obtain ⟨key, _, hkey⟩ := hc
  by_cases h0 : key = 0
  · rw [if_pos h0] at hkey
    exact absurd hkey (by simp)
  · rw [if_neg h0] at hkey
    by_cases hm : key ∈ prev.drop 2
    · rw [if_pos hm] at hkey
      exact absurd hkey (by simp)
    · rw [if_neg hm] at hkey
      have he := Option.some.inj hkey
      rw [← he]

theorem count_pair_eq_count_snd (calls : List (Nat × Nat)) (m0 K : Nat)
    (hfst : ∀ c ∈ calls, c.1 = m0) :
    calls.count (m0, K) = (calls.map Prod.snd).count K := by
  induction calls with
  | nil => rfl
  | cons c cs ih =>
    have hc1 : c.1 = m0 := hfst c (by simp)
    have hrest : ∀ x ∈ cs, x.1 = m0 := fun x hx => hfst x (by simp [hx])
    rw [List.map_cons, List.count_cons, List.count_cons, ih hrest]
    have hbeq : (c == (m0, K)) = (c.2 == K) := by
      rcases c with ⟨c1, c2⟩
      simp only at hc1
      subst hc1
      by_cases h : c2 = K
      · simp [h]
      · simp [h, Prod.ext_iff]
    rw [hbeq]

theorem count_filterMap_diff (prev : List Nat) (m0 K : Nat) :
    ∀ L : List Nat,
    (((L.filterMap fun key =>
        if key = 0 then none
        else if key ∈ prev.drop 2 then none
        else some (m0, key))).map Prod.snd).count K =
      if K ≠ 0 ∧ K ∉ prev.drop 2 then L.count K else 0 := by
  intro L
  induction L with
  | nil => simp
  | cons a L ih =>
    by_cases ha0 : a = 0
    · have hfa : (if a = 0 then none
          else if a ∈ prev.drop 2 then none else some (m0, a)) =
          (none : Option (Nat × Nat)) := by rw [if_pos ha0]
      simp only [List.filterMap_cons, hfa]
      rw [ih]
      by_cases hK : K ≠ 0 ∧ K ∉ prev.drop 2
      · rw [if_pos hK, if_pos hK, List.count_cons]
        have hne : ¬ (a == K) = true := by
          simp only [beq_iff_eq]
          omega
        simp [hne]
      · rw [if_neg hK, if_neg hK]
    · by_cases ham : a ∈ prev.drop 2
      · have hfa : (if a = 0 then none
            else if a ∈ prev.drop 2 then none else some (m0, a)) =
            (none : Option (Nat × Nat)) := by rw [if_neg ha0, if_pos ham]
        simp only [List.filterMap_cons, hfa]
        rw [ih]
        by_cases hK : K ≠ 0 ∧ K ∉ prev.drop 2
        · rw [if_pos hK, if_pos hK, List.count_cons]
          have hne : ¬ (a == K) = true := by
            simp only [beq_iff_eq]
            intro h
            exact hK.2 (h ▸ ham)
          simp [hne]
        · rw [if_neg hK, if_neg hK]
      · have hfa : (if a = 0 then none
            else if a ∈ prev.drop 2 then none else some (m0, a)) =
            some (m0, a) := by rw [if_neg ha0, if_neg ham]
        simp only [List.filterMap_cons, hfa]
        rw [List.map_cons, List.count_cons, ih, List.count_cons]
        by_cases hK : K ≠ 0 ∧ K ∉ prev.drop 2
        · rw [if_pos hK, if_pos hK]
        · rw [if_neg hK, if_neg hK]
          have hne : ¬ (a == K) = true := by
            simp only [beq_iff_eq]
            intro h
            subst h
            exact hK ⟨ha0, ham⟩
          simp [hne]

theorem kbdDiffCalls_snd_count (cur prev : List Nat) (K : Nat) :
    ((usb.kbdDiffCalls cur prev).map Prod.snd).count K =
      if K ≠ 0 ∧ K ∉ prev.drop 2 then ((cur.drop 2).take 6).count K else 0 := by
  unfold usb.kbdDiffCalls
  exact count_filterMap_diff prev (cur.getD 0 0) K ((cur.drop 2).take 6)

theorem count_map_range {γ : Type} [BEq γ] [LawfulBEq γ] (g : Nat → γ)
    (hinj : ∀ x y, g x = g y → x = y) (i0 : Nat) :
    ∀ n, ((List.range n).map g).count (g i0) = if i0 < n then 1 else 0 := by
  intro n
  induction n with
  | zero => simp
  | succ n ih =>
    rw [List.range_succ, List.map_append, List.count_append, ih]
    by_cases h : i0 = n
    · subst h
      have h1 : (List.map g [i0]).count (g i0) = 1 := by simp
      rw [h1, if_neg (by omega : ¬ i0 < i0), if_pos (by omega : i0 < i0 + 1)]
    · have h1 : (List.map g [n]).count (g i0) = 0 := by
        simp only [List.map_cons, List.map_nil, List.count_singleton]
        have : ¬ (g n == g i0) = true := by
          intro hb
          exact h (hinj n i0 (eq_of_beq hb)).symm
        simp [this]
      rw [h1]
      by_cases hlt : i0 < n
      · rw [if_pos hlt, if_pos (by omega : i0 < n + 1)]
      · rw [if_neg hlt, if_neg (by omega : ¬ i0 < n + 1)]

theorem notify_trace_count {α : Type} [DecidableEq α] (d : usb.HIDKeyboardDriver α)
    (calls : List (Nat × Nat)) (i0 : Nat) (hi : i0 < d.num_observers) (m0 K : Nat) :
    (calls.flatMap fun c => d.NotifyKeyPush c.1 c.2).count
      (i0, d.observers i0, m0, K) = calls.count (m0, K) := by
  have hblock : ∀ c1 c2 : Nat,
      (d.NotifyKeyPush c1 c2).count (i0, d.observers i0, m0, K) =
        if (c1, c2) == (m0, K) then 1 else 0 := by
    intro c1 c2
    by_cases hcm : ((c1, c2) : Nat × Nat) = (m0, K)
    · have h1 : c1 = m0 := congrArg Prod.fst hcm
      have h2 : c2 = K := congrArg Prod.snd hcm
      subst h1
      subst h2
      simp only [beq_self_eq_true, if_pos]
      unfold usb.HIDKeyboardDriver.NotifyKeyPush
      have hinj : ∀ x y : Nat,
          ((x, d.observers x, c1, c2) : Nat × Option α × Nat × Nat) =
            (y, d.observers y, c1, c2) → x = y := by
        intro x y h
        simpa using congrArg Prod.fst h
      have hc := count_map_range
        (fun i => ((i, d.observers i, c1, c2) : Nat × Option α × Nat × Nat))
        hinj i0 d.num_observers
      rw [if_pos hi] at hc
      exact hc
    · have hne : ¬ (((c1, c2) : Nat × Nat) == (m0, K)) = true := by
        simp only [beq_iff_eq]
        exact hcm
      rw [if_neg hne, List.count_eq_zero]
      intro hmem
      unfold usb.HIDKeyboardDriver.NotifyKeyPush at hmem
      obtain ⟨i, _, hie⟩ := List.mem_map.1 hmem
      apply hcm
      have h3 : c1 = m0 := congrArg (fun p => p.2.2.1) hie
      have h4 : c2 = K := congrArg (fun p => p.2.2.2) hie
      rw [h3, h4]
  induction calls with
  | nil => rfl
  | cons c cs ih =>
    rw [List.flatMap_cons, List.count_append, ih, List.count_cons, hblock c.1 c.2]
    by_cases hcm : (((c.1, c.2) : Nat × Nat) == (m0, K)) = true
    · rw [if_pos hcm]
      omega
    · rw [if_neg hcm]
      omega

theorem drop2_take6_of_len8 (l : List Nat) (h : l.length = 8) :
    (l.drop 2).take 6 = l.drop 2 := by
  apply List.take_of_length_le
  rw [List.length_drop, h]

theorem kbdDiffCalls_snd_fresh {cur prev : List Nat} {c : Nat × Nat}
    (hc : c ∈ usb.kbdDiffCalls cur prev) : c.2 ≠ 0 ∧ c.2 ∉ prev.drop 2 := by
  simp only [usb.kbdDiffCalls, List.mem_filterMap] at hc
  obtain ⟨key, _, hkey⟩ := hc
  by_cases h0 : key = 0
  · rw [if_pos h0] at hkey
    exact absurd hkey (by simp)
  · rw [if_neg h0] at hkey
    by_cases hm : key ∈ prev.drop 2
    · rw [if_pos hm] at hkey
      exact absurd hkey (by simp)
    · rw [if_neg hm] at hkey
      have he := Option.some.inj hkey
      rw [← he]
      exact ⟨h0, hm⟩

/-- C1: keyboard key-diff notifications.  Over a pair of consecutive
8-byte reports: (1) a non-zero byte value K absent from bytes [2, 8)
of the previous report makes `OnDataReceived` invoke every registered
observer slot exactly once per occurrence of K in bytes [2, 8) of the
current report, with modifier = byte 0 of the current report (so
exactly once when K occurs at one index); (2) a byte value present in
bytes [2, 8) of the previous report triggers no notification with
keycode K at all; (3) over three reports in which K appears once,
then disappears, then reappears once, exactly two notifications with
keycode K fire in total. -/
theorem C1_keyboard_diff_notifications {α : Type} [DecidableEq α]
    (d : usb.HIDKeyboardDriver α) (K : Nat)
    (hc : d.buffer.length = 8) (_hp : d.previous_buffer.length = 8) (hK : K ≠ 0) :
    (K ∉ d.previous_buffer.drop 2 →
      ∀ i0, i0 < d.num_observers →
        (d.OnDataReceived).1.count
            (i0, d.observers i0, d.buffer.getD 0 0, K) =
          (d.buffer.drop 2).count K) ∧
    (K ∈ d.previous_buffer.drop 2 →
      ∀ e ∈ (d.OnDataReceived).1, e.2.2.2 ≠ K) ∧
    (∀ r0 r1 r2 r3 : List Nat,
      r1.length = 8 → r2.length = 8 → r3.length = 8 →
      K ∉ r0.drop 2 → (r1.drop 2).count K = 1 → K ∉ r2.drop 2 →
      (r3.drop 2).count K = 1 →
      ((usb.kbdDiffCalls r1 r0).map Prod.snd).count K +
        ((usb.kbdDiffCalls r2 r1).map Prod.snd).count K +
        ((usb.kbdDiffCalls r3 r2).map Prod.snd).count K = 2) := by
  refine ⟨?_, ?_, ?_⟩
  · intro hKnotin i0 hi0
    have htr : (d.OnDataReceived).1 =
        (usb.kbdDiffCalls d.buffer d.previous_buffer).flatMap fun c =>
          d.NotifyKeyPush c.1 c.2 := rfl
    rw [htr, notify_trace_count d _ i0 hi0,
      count_pair_eq_count_snd _ _ _ (fun c hcm => kbdDiffCalls_fst hcm),
      kbdDiffCalls_snd_count, if_pos ⟨hK, hKnotin⟩, drop2_take6_of_len8 _ hc]
  · intro hKin e he
    have htr : (d.OnDataReceived).1 =
        (usb.kbdDiffCalls d.buffer d.previous_buffer).flatMap fun c =>
          d.NotifyKeyPush c.1 c.2 := rfl
    rw [htr] at he
    obtain ⟨c, hcmem, hce⟩ := List.mem_flatMap.1 he
    unfold usb.HIDKeyboardDriver.NotifyKeyPush at hce
    obtain ⟨i, _, hie⟩ := List.mem_map.1 hce
    have h4 : c.2 = e.2.2.2 := congrArg (fun p => p.2.2.2) hie
    have hfr := kbdDiffCalls_snd_fresh hcmem
    intro heq
    rw [heq] at h4
    exact hfr.2 (h4 ▸ hKin)
  · intro r0 r1 r2 r3 h1 h2 h3 hn0 hc1 hn2 hc3
    have hm1 : K ∈ r1.drop 2 := by
      by_contra hmem
      rw [List.count_eq_zero_of_not_mem hmem] at hc1
      omega
    rw [kbdDiffCalls_snd_count, kbdDiffCalls_snd_count, kbdDiffCalls_snd_count,
      if_pos ⟨hK, hn0⟩, if_neg (by simp [hm1]), if_pos ⟨hK, hn2⟩,
      drop2_take6_of_len8 _ h1, drop2_take6_of_len8 _ h3]
    omega

/-- C1 witness: a driver with one registered observer, current report
`01 00 1e 00 00 00 00 00` (modifier 1, key 0x1e newly pressed) and
previous report `01 00 00 00 00 00 00 00`: observer slot 0 is
notified exactly once with (modifier 1, keycode 0x1e). -/
theorem C1_keyboard_diff_notifications_witness :
    ((usb.HIDKeyboardDriver.mk [1, 0, 30, 0, 0, 0, 0, 0] [1, 0, 0, 0, 0, 0, 0, 0]
        (fun i => if i = 0 then some 5 else Option.none) 1 4).OnDataReceived).1.count
        (0, (usb.HIDKeyboardDriver.mk [1, 0, 30, 0, 0, 0, 0, 0] [1, 0, 0, 0, 0, 0, 0, 0]
          (fun i => if i = 0 then some 5 else Option.none) 1 4).observers 0,
          (usb.HIDKeyboardDriver.mk [1, 0, 30, 0, 0, 0, 0, 0] [1, 0, 0, 0, 0, 0, 0, 0]
          (fun i => if i = 0 then some 5 else Option.none) 1 4).buffer.getD 0 0, 30) =
      ((usb.HIDKeyboardDriver.mk [1, 0, 30, 0, 0, 0, 0, 0] [1, 0, 0, 0, 0, 0, 0, 0]
        (fun i => if i = 0 then some 5 else Option.none) 1 4).buffer.drop 2).count 30 :=
  (C1_keyboard_diff_notifications
    (usb.HIDKeyboardDriver.mk [1, 0, 30, 0, 0, 0, 0, 0] [1, 0, 0, 0, 0, 0, 0, 0]
      (fun i => if i = 0 then some 5 else Option.none) 1 4) 30
    (by decide) (by decide) (by decide)).1 (by decide) 0 (by decide)

/-- C4 counterexample: `SubscribeKeyPush` increments the observer
counter with no capacity check, so a call on an already-full registry
(num_observers = capacity = 1) produces num_observers = 2 > capacity:
the claimed invariant preservation fails on the code (in C++ the
write `observers_[num_observers_++]` then lands past the end of the
array). -/
theorem C4_unchecked_subscribe_counterexample :
    (usb.HIDKeyboardDriver.mk [] [] (fun _ => (Option.none : Option Nat)) 1 1).num_observers ≤
      (usb.HIDKeyboardDriver.mk [] [] (fun _ => (Option.none : Option Nat)) 1 1).capacity ∧
    ¬ ((usb.HIDKeyboardDriver.mk [] [] (fun _ => (Option.none : Option Nat)) 1 1).SubscribeKeyPush
          7).num_observers ≤
        ((usb.HIDKeyboardDriver.mk [] [] (fun _ => (Option.none : Option Nat)) 1 1).SubscribeKeyPush
          7).capacity := by
  constructor
  · decide
  · intro h
    simp only [usb.HIDKeyboardDriver.SubscribeKeyPush] at h
    omega

/-- C4 (amended): `SubscribeKeyPush` leaves the declared capacity
unchanged and increments `num_observers_` unconditionally, so the
invariant `num_observers ≤ capacity` is preserved exactly on calls
made while the registry is not yet full (`num_observers < capacity`
before the call). -/
theorem C4_subscribe_preserves_unless_full {α : Type}
    (d : usb.HIDKeyboardDriver α) (f : α) :
    (d.SubscribeKeyPush f).num_observers = d.num_observers + 1 ∧
    (d.SubscribeKeyPush f).capacity = d.capacity ∧
    (d.num_observers < d.capacity →
      (d.SubscribeKeyPush f).num_observers ≤ (d.SubscribeKeyPush f).capacity) := by
  refine ⟨rfl, rfl, ?_⟩
  intro h
  simp only [usb.HIDKeyboardDriver.SubscribeKeyPush]
  omega

/-- C4 witness: subscribing into a registry with 0 of 4 slots used
keeps the counter within the capacity. -/
theorem C4_subscribe_preserves_unless_full_witness :
    ((usb.HIDKeyboardDriver.mk [] [] (fun _ => (Option.none : Option Nat)) 0 4).SubscribeKeyPush
        3).num_observers ≤
      ((usb.HIDKeyboardDriver.mk [] [] (fun _ => (Option.none : Option Nat)) 0 4).SubscribeKeyPush
        3).capacity :=
  (C4_subscribe_preserves_unless_full
    (usb.HIDKeyboardDriver.mk [] [] (fun _ => (Option.none : Option Nat)) 0 4) 3).2.2
    (by decide)

/-- C10: on a driver whose observer registry was filled only by
`SubscribeKeyPush` calls (observers `fs`, in order, starting from a
fresh instance), `NotifyKeyPush` produces exactly one invocation per
registered slot, in subscription order, each with the given
(modifier, keycode); and an observer value — in particular the
class-level static `default_observer` — receives an invocation iff it
was subscribed into the per-instance list. -/
theorem C10_notify_exactly_subscribed {α : Type} (cur prev : List Nat) (cap : Nat)
    (fs : List α) (modifier keycode : Nat) (g : α) :
    ((usb.HIDKeyboardDriver.mkFresh α cur prev cap).subscribeAll fs).NotifyKeyPush
        modifier keycode =
      (List.range fs.length).map (fun i => (i, fs.get? i, modifier, keycode)) ∧
    ((∃ i, (i, some g, modifier, keycode) ∈
        ((usb.HIDKeyboardDriver.mkFresh α cur prev cap).subscribeAll fs).NotifyKeyPush
          modifier keycode) ↔ g ∈ fs) := by
  have hobs0 : ∀ i, (usb.HIDKeyboardDriver.mkFresh α cur prev cap).num_observers ≤ i →
      (usb.HIDKeyboardDriver.mkFresh α cur prev cap).observers i = none :=
    fun i _ => rfl
  have hspec := subscribeAll_spec fs (usb.HIDKeyboardDriver.mkFresh α cur prev cap) hobs0
  have hnum : ((usb.HIDKeyboardDriver.mkFresh α cur prev cap).subscribeAll fs).num_observers =
      fs.length := by
    rw [hspec.1]
    simp [usb.HIDKeyboardDriver.mkFresh]
  have hobs : ∀ i,
      ((usb.HIDKeyboardDriver.mkFresh α cur prev cap).subscribeAll fs).observers i =
        fs.get? i := by
    intro i
    rw [hspec.2 i]
    simp [usb.HIDKeyboardDriver.mkFresh]
  have htrace : ((usb.HIDKeyboardDriver.mkFresh α cur prev cap).subscribeAll fs).NotifyKeyPush
      modifier keycode =
      (List.range fs.length).map (fun i => (i, fs.get? i, modifier, keycode)) := by
    unfold usb.HIDKeyboardDriver.NotifyKeyPush
    rw [hnum]
    apply List.map_congr_left
    intro i _
    rw [hobs i]
  refine ⟨htrace, ?_⟩
  rw [htrace]
  constructor
  · rintro ⟨i, hmem⟩
    obtain ⟨j, _, hje⟩ := List.mem_map.1 hmem
    have hsnd : fs.get? j = some g := congrArg (fun p => p.2.1) hje
    exact List.get?_mem hsnd
  · intro hg
    obtain ⟨n, hn⟩ := List.mem_iff_get?.1 hg
    have hlt : n < fs.length := (List.get?_eq_some.1 hn).1
    exact ⟨n, List.mem_map.2 ⟨n, List.mem_range.2 hlt, by rw [hn]⟩⟩

/-- C10 witness: the theorem applied with two subscribed observers
(the values 4 and 6) and a default-observer value 9 that was not
subscribed: the trace is exactly the two slots in order, and 9 is not
invoked. -/
theorem C10_notify_exactly_subscribed_witness :
    ((usb.HIDKeyboardDriver.mkFresh Nat [] [] 4).subscribeAll [4, 6]).NotifyKeyPush 2 30 =
      (List.range ([4, 6] : List Nat).length).map
        (fun i => (i, ([4, 6] : List Nat).get? i, 2, 30)) ∧
    ((∃ i, (i, some 9, 2, 30) ∈
        ((usb.HIDKeyboardDriver.mkFresh Nat [] [] 4).subscribeAll [4, 6]).NotifyKeyPush 2 30) ↔
      (9 : Nat) ∈ ([4, 6] : List Nat)) :=
  C10_notify_exactly_subscribed [] [] 4 [4, 6] 2 30 9

/-- C7: for every `Error` constructed with a code from the closed
16-kind enumeration (and any origin file and line), the boolean
conversion is false iff the code is `kSuccess` — every non-success
code converts to true — and `Name()` returns a non-empty string. -/
theorem C7_error_bool_and_name (c : ErrorCode) (file : String) (line : Int) :
    ((MAKE_ERROR c file line).toBool = false ↔ c = ErrorCode.kSuccess) ∧
    0 < (MAKE_ERROR c file line).Name.length := by
  cases c <;> refine ⟨?_, ?_⟩ <;>
    simp only [MAKE_ERROR, Error.toBool, Error.Name, ErrorCode.codeName] <;> decide

/-- C6: the port sweep visits every port index from 1 to MaxPorts
inclusive, in order (the sequence of debug-logged indices is exactly
1..MaxPorts regardless of connection states and configuration
failures, so no failure aborts the sweep early); it attempts
configuration exactly for the in-range ports reporting IsConnected;
and when configuration of a connected port fails, the error is logged
with its name, file and line while the sweep continues. -/
theorem C6_port_sweep_logs_and_continues (xhc : XhciController) :
    ((cxx_xhci_controller_configure_connected_ports xhc).filterMap
      (fun act => match act with
        | PortAction.logDebug i _ => some i
        | _ => none) = List.range' 1 xhc.maxPorts) ∧
    (∀ i, PortAction.configureAttempt i ∈
        cxx_xhci_controller_configure_connected_ports xhc ↔
      (1 ≤ i ∧ i ≤ xhc.maxPorts ∧ xhc.isConnected i = true)) ∧
    (∀ i, 1 ≤ i → i ≤ xhc.maxPorts → xhc.isConnected i = true →
      (xhc.configurePort i).toBool = true →
      PortAction.logError i (xhc.configurePort i).Name (xhc.configurePort i).File
          (xhc.configurePort i).Line ∈
        cxx_xhci_controller_configure_connected_ports xhc) := by
  refine ⟨?_, ?_, ?_⟩
  · have key : ∀ n st,
        ((List.range' st n).flatMap fun i =>
          PortAction.logDebug i (xhc.isConnected i) ::
            (if xhc.isConnected i then
              PortAction.configureAttempt i ::
                (if (xhc.configurePort i).toBool then
                  [PortAction.logError i (xhc.configurePort i).Name
                    (xhc.configurePort i).File (xhc.configurePort i).Line]
                else [])
            else [])).filterMap
          (fun act => match act with
            | PortAction.logDebug i _ => some i
            | _ => none) = List.range' st n := by
      intro n
      induction n with
      | zero => intro st; rfl
      | succ n ih =>
        intro st
        rw [List.range'_succ, List.flatMap_cons, List.filterMap_append, ih]
        by_cases hc : xhc.isConnected st <;>
          by_cases he : (xhc.configurePort st).toBool <;>
            simp [hc, he, List.range'_succ]
    exact key xhc.maxPorts 1
  · intro i
    unfold cxx_xhci_controller_configure_connected_ports
    rw [List.mem_flatMap]
    constructor
    · rintro ⟨k, hk, hmem⟩
      have hrange := List.mem_range'_1.1 hk
      rcases List.mem_cons.1 hmem with h | h
      · exact absurd h (by simp)
      · by_cases hc : xhc.isConnected k
        · rw [if_pos hc] at h
          rcases List.mem_cons.1 h with h2 | h2
          · have hik : i = k := by
              injection h2
            subst hik
            exact ⟨by omega, by omega, hc⟩
          · by_cases he : (xhc.configurePort k).toBool
            · rw [if_pos he] at h2
              exact absurd h2 (by simp)
            · rw [if_neg he] at h2
              exact absurd h2 (by simp)
        · rw [if_neg hc] at h
          exact absurd h (by simp)
    · rintro ⟨h1, h2, hconn⟩
      refine ⟨i, List.mem_range'_1.2 ⟨h1, by omega⟩, ?_⟩
      rw [List.mem_cons]
      right
      rw [if_pos hconn]
      exact List.mem_cons_self _ _
  · intro i h1 h2 hconn herr
    unfold cxx_xhci_controller_configure_connected_ports
    rw [List.mem_flatMap]
    refine ⟨i, List.mem_range'_1.2 ⟨h1, by omega⟩, ?_⟩
    rw [List.mem_cons]
    right
    rw [if_pos hconn, List.mem_cons]
    right
    rw [if_pos herr]
    exact List.mem_cons_self _ _

/-- C6 witness: a controller with 2 ports, both connected, where
configuring port 1 fails with kTransferFailed: the failure is logged
with its name, file and line (and by the first conjunct of the
theorem the sweep still visits port 2). -/
theorem C6_port_sweep_logs_and_continues_witness :
    PortAction.logError 1
        ((XhciController.mk 2 (fun _ => true)
          (fun i => if i = 1 then MAKE_ERROR ErrorCode.kTransferFailed "usb/xhci.cpp" 100
            else MAKE_ERROR ErrorCode.kSuccess "usb/xhci.cpp" 0)).configurePort 1).Name
        ((XhciController.mk 2 (fun _ => true)
          (fun i => if i = 1 then MAKE_ERROR ErrorCode.kTransferFailed "usb/xhci.cpp" 100
            else MAKE_ERROR ErrorCode.kSuccess "usb/xhci.cpp" 0)).configurePort 1).File
        ((XhciController.mk 2 (fun _ => true)
          (fun i => if i = 1 then MAKE_ERROR ErrorCode.kTransferFailed "usb/xhci.cpp" 100
            else MAKE_ERROR ErrorCode.kSuccess "usb/xhci.cpp" 0)).configurePort 1).Line ∈
      cxx_xhci_controller_configure_connected_ports
        (XhciController.mk 2 (fun _ => true)
          (fun i => if i = 1 then MAKE_ERROR ErrorCode.kTransferFailed "usb/xhci.cpp" 100
            else MAKE_ERROR ErrorCode.kSuccess "usb/xhci.cpp" 0)) :=
  (C6_port_sweep_logs_and_continues
    (XhciController.mk 2 (fun _ => true)
      (fun i => if i = 1 then MAKE_ERROR ErrorCode.kTransferFailed "usb/xhci.cpp" 100
        else MAKE_ERROR ErrorCode.kSuccess "usb/xhci.cpp" 0))).2.2 1
    (by decide) (by decide) (by decide) (by decide)
